import Mathlib

/-!
Verification development for the HueGraphics model-parser crate.

The Rust sources under src/model_parser are shallowly embedded below:

* f32 values are idealized as rationals; square roots (used only for
  triangle areas, normal lengths and the barycentric trick) are passed in
  as an explicit nonnegative function argument, and the EPT bounding-box
  padding (which genuinely needs a square root in its result) lives in the
  reals.
* the thread-local random generator is modelled as an explicit stream of
  unit-interval draws, indexed by how many draws have been consumed; each
  Rust rng call consumes one draw, in program order.
* filesystem writes are out of scope; the serializers are modelled as the
  pure byte lists and JSON values they write.
-/

namespace HueGraphics

/-- A 3-component vector, mirroring glam's Vec3 with rational components. -/
structure Vec3 where
  x : ℚ
  y : ℚ
  z : ℚ
deriving DecidableEq

instance : Zero Vec3 := ⟨⟨0, 0, 0⟩⟩

instance : Add Vec3 := ⟨fun a b => ⟨a.x + b.x, a.y + b.y, a.z + b.z⟩⟩

instance : Sub Vec3 := ⟨fun a b => ⟨a.x - b.x, a.y - b.y, a.z - b.z⟩⟩

instance : SMul ℚ Vec3 := ⟨fun c v => ⟨c * v.x, c * v.y, c * v.z⟩⟩

@[simp] theorem Vec3.add_x (a b : Vec3) : (a + b).x = a.x + b.x := rfl

@[simp] theorem Vec3.add_y (a b : Vec3) : (a + b).y = a.y + b.y := rfl

@[simp] theorem Vec3.add_z (a b : Vec3) : (a + b).z = a.z + b.z := rfl

@[simp] theorem Vec3.sub_x (a b : Vec3) : (a - b).x = a.x - b.x := rfl

@[simp] theorem Vec3.sub_y (a b : Vec3) : (a - b).y = a.y - b.y := rfl

@[simp] theorem Vec3.sub_z (a b : Vec3) : (a - b).z = a.z - b.z := rfl

@[simp] theorem Vec3.smul_x (c : ℚ) (v : Vec3) : (c • v).x = c * v.x := rfl

@[simp] theorem Vec3.smul_y (c : ℚ) (v : Vec3) : (c • v).y = c * v.y := rfl

@[simp] theorem Vec3.smul_z (c : ℚ) (v : Vec3) : (c • v).z = c * v.z := rfl

@[simp] theorem Vec3.zero_x : (0 : Vec3).x = 0 := rfl

@[simp] theorem Vec3.zero_y : (0 : Vec3).y = 0 := rfl

@[simp] theorem Vec3.zero_z : (0 : Vec3).z = 0 := rfl

/-- glam Vec3 dot product. -/
def Vec3.dot (a b : Vec3) : ℚ := a.x * b.x + a.y * b.y + a.z * b.z

/-- glam Vec3 cross product. -/
def Vec3.cross (a b : Vec3) : Vec3 :=
  ⟨a.y * b.z - a.z * b.y, a.z * b.x - a.x * b.z, a.x * b.y - a.y * b.x⟩

/-- src/point_cloud.rs, struct Point: position plus optional normal/color. -/
structure Point where
  position : Vec3
  normal : Option Vec3
  color : Option Vec3
deriving DecidableEq

/-- src/point_cloud.rs, Point::new. -/
def Point.new (position : Vec3) : Point := ⟨position, none, none⟩

/-- src/point_cloud.rs, Point::with_normal. -/
def Point.with_normal (p : Point) (n : Vec3) : Point := { p with normal := some n }

/-- src/point_cloud.rs, Point::with_color. -/
def Point.with_color (p : Point) (c : Vec3) : Point := { p with color := some c }

@[simp] theorem Point.new_position (v : Vec3) : (Point.new v).position = v := rfl

@[simp] theorem Point.with_normal_position (p : Point) (n : Vec3) :
    (p.with_normal n).position = p.position := rfl

@[simp] theorem Point.with_color_position (p : Point) (c : Vec3) :
    (p.with_color c).position = p.position := rfl

/-- src/config.rs, enum SamplingStrategy. -/
inductive SamplingStrategy where
  | Uniform
  | AreaWeighted
  | Vertices
deriving DecidableEq

/-- src/config.rs, struct PointCloudConfig; all six fields are public in the
Rust source, so arbitrary field values are constructible by clients. -/
structure PointCloudConfig where
  point_count : ℕ
  sampling_strategy : SamplingStrategy
  include_normals : Bool
  include_colors : Bool
  scale : ℚ
  jitter : ℚ
deriving DecidableEq

/-- src/config.rs, impl Default for PointCloudConfig. -/
def PointCloudConfig.mkDefault : PointCloudConfig :=
  { point_count := 2000
    sampling_strategy := .AreaWeighted
    include_normals := true
    include_colors := true
    scale := 1
    jitter := 0 }

/-- src/config.rs, PointCloudConfig::new. -/
def PointCloudConfig.new (point_count : ℕ) : PointCloudConfig :=
  { PointCloudConfig.mkDefault with point_count := point_count }

/-- src/config.rs, PointCloudConfig::with_strategy. -/
def PointCloudConfig.with_strategy (c : PointCloudConfig) (s : SamplingStrategy) :
    PointCloudConfig := { c with sampling_strategy := s }

/-- src/config.rs, PointCloudConfig::with_normals. -/
def PointCloudConfig.with_normals (c : PointCloudConfig) (b : Bool) :
    PointCloudConfig := { c with include_normals := b }

/-- src/config.rs, PointCloudConfig::with_colors. -/
def PointCloudConfig.with_colors (c : PointCloudConfig) (b : Bool) :
    PointCloudConfig := { c with include_colors := b }

/-- src/config.rs, PointCloudConfig::with_scale. -/
def PointCloudConfig.with_scale (c : PointCloudConfig) (s : ℚ) :
    PointCloudConfig := { c with scale := s }

/-- src/config.rs, PointCloudConfig::with_jitter: the argument is clamped to
the interval from 0 to 1 before being stored (Rust f32::clamp is
self.max(lo).min(hi)). -/
def PointCloudConfig.with_jitter (c : PointCloudConfig) (j : ℚ) :
    PointCloudConfig := { c with jitter := min (max j 0) 1 }

/-! ## Sampling engine (src/parser.rs, ModelParser::generate_point_cloud)

The rng is a stream of draws in the unit interval, one per Rust call to
rng.gen or rng.gen_range, consumed in program order; the stream is indexed
by the number of draws consumed so far.  Square roots are supplied through
an explicit function argument sqrtFn. -/

/-- rng.gen_range(0..n) for usize: an in-range index derived from one unit
draw (uniform integer selection). -/
def natDraw (u : ℚ) (n : ℕ) : ℕ := min (n - 1) (Int.toNat ⌊u * n⌋)

/-- rng.gen_range(lo..hi) for floats: lo + u * (hi - lo). -/
def rangeDraw (u lo hi : ℚ) : ℚ := lo + u * (hi - lo)

/-- parser.rs lines 193-199 and 228-234: the additive positional noise.  When
jitter is positive, each axis gets an independent draw from the half-open
interval from -jitter*0.1 to jitter*0.1; otherwise no noise is added. -/
def jitterNoise (jitter : ℚ) (u1 u2 u3 : ℚ) : Vec3 :=
  if 0 < jitter then
    let jitter_amount := jitter * (1 / 10)
    ⟨rangeDraw u1 (-jitter_amount) jitter_amount,
     rangeDraw u2 (-jitter_amount) jitter_amount,
     rangeDraw u3 (-jitter_amount) jitter_amount⟩
  else 0

/-- parser.rs lines 193-201 / 228-236: add the jitter noise to the sampled
position, then apply the uniform scale multiplier. -/
def scaleJitter (cfg : PointCloudConfig) (pos : Vec3) (u1 u2 u3 : ℚ) : Vec3 :=
  cfg.scale • (pos + jitterNoise cfg.jitter u1 u2 u3)

/-- glam Vec3::normalize: divide by the Euclidean length. -/
def normalizeV (sqrtFn : ℚ → ℚ) (v : Vec3) : Vec3 :=
  let len := sqrtFn (Vec3.dot v v)
  ⟨v.x / len, v.y / len, v.z / len⟩

/-- indices.chunks(3): groups of three indices; a trailing group of one or
two indices is kept as a short chunk. -/
def chunks3 : List ℕ → List (List ℕ)
  | a :: b :: c :: rest => [a, b, c] :: chunks3 rest
  | [] => []
  | l => [l]

/-- parser.rs lines 140-158: per-triangle selection weights.  AreaWeighted
uses half the cross-product magnitude (zero for a short chunk); any other
strategy uses weight 1 for every chunk, short chunks included. -/
def triangleWeights (sqrtFn : ℚ → ℚ) (vertices : List Vec3)
    (strategy : SamplingStrategy) (triangles : List (List ℕ)) : List ℚ :=
  match strategy with
  | .AreaWeighted =>
      triangles.map (fun tri =>
        match tri with
        | [i0, i1, i2] =>
            let v0 := vertices.getD i0 0
            let v1 := vertices.getD i1 0
            let v2 := vertices.getD i2 0
            let d := Vec3.cross (v1 - v0) (v2 - v0)
            sqrtFn (Vec3.dot d d) * (1 / 2)
        | _ => 0)
  | _ => List.replicate triangles.length 1

/-- parser.rs lines 165-173: the linear weighted-selection scan.  Starting
from the drawn remainder, subtract each weight in order and stop at the
first index where the remainder drops to zero or below; if the scan
exhausts the list the initial default index 0 stands. -/
def selectAux : List ℚ → ℚ → ℕ → ℕ
  | [], _, _ => 0
  | w :: rest, ws, i => if ws - w ≤ 0 then i else selectAux rest (ws - w) (i + 1)

/-- parser.rs lines 164-173: select a triangle index from a remainder drawn
in [0, total_weight). -/
def selectTri (weights : List ℚ) (ws : ℚ) : ℕ := selectAux weights ws 0

/-- parser.rs lines 181-191: barycentric position inside the selected
triangle using the square-root trick (r1 = sqrt(u), a = 1-r1,
b = r1*(1-r2), c = r1*r2). -/
def triBase (sqrtFn : ℚ → ℚ) (vertices : List Vec3) (tri : List ℕ)
    (r1u r2 : ℚ) : Vec3 :=
  let r1 := sqrtFn r1u
  let a := 1 - r1
  let b := r1 * (1 - r2)
  let c := r1 * r2
  let v0 := vertices.getD (tri.getD 0 0) 0
  let v1 := vertices.getD (tri.getD 1 0) 0
  let v2 := vertices.getD (tri.getD 2 0) 0
  a • v0 + b • v1 + c • v2

/-- parser.rs lines 180-220: build one sampled point from the selected full
triangle, consuming the barycentric draws r1u r2 and the jitter draws
u1 u2 u3 (the latter are ignored when jitter is zero). -/
def triPoint (sqrtFn : ℚ → ℚ) (vertices normals colors : List Vec3)
    (cfg : PointCloudConfig) (hasN hasC : Bool) (tri : List ℕ)
    (r1u r2 u1 u2 u3 : ℚ) : Point :=
  let r1 := sqrtFn r1u
  let a := 1 - r1
  let b := r1 * (1 - r2)
  let c := r1 * r2
  let scaled_pos := scaleJitter cfg (triBase sqrtFn vertices tri r1u r2) u1 u2 u3
  let p := Point.new scaled_pos
  let p :=
    if hasN ∧ cfg.include_normals then
      let n0 := normals.getD (tri.getD 0 0) 0
      let n1 := normals.getD (tri.getD 1 0) 0
      let n2 := normals.getD (tri.getD 2 0) 0
      p.with_normal (normalizeV sqrtFn (a • n0 + b • n1 + c • n2))
    else p
  if hasC ∧ cfg.include_colors then
    let c0 := colors.getD (tri.getD 0 0) 0
    let c1 := colors.getD (tri.getD 1 0) 0
    let c2 := colors.getD (tri.getD 2 0) 0
    p.with_color (a • c0 + b • c1 + c • c2)
  else p

/-- parser.rs lines 162-221: the triangle-sampling loop.  Each iteration
draws one selection value; a full selected chunk then consumes two
barycentric draws, plus three jitter draws when jitter is positive, and
emits a point; a short selected chunk emits nothing (the Rust continue). -/
def triLoop (sqrtFn : ℚ → ℚ) (rng : ℕ → ℚ) (vertices normals colors : List Vec3)
    (cfg : PointCloudConfig) (hasN hasC : Bool)
    (triangles : List (List ℕ)) (weights : List ℚ) (total : ℚ) :
    ℕ → ℕ → List Point := fun n k =>
  match n with
  | 0 => []
  | n + 1 =>
    let sel := selectTri weights (rng k * total)
    let tri := triangles.getD sel []
    if tri.length = 3 then
      let p := triPoint sqrtFn vertices normals colors cfg hasN hasC tri
        (rng (k + 1)) (rng (k + 2)) (rng (k + 3)) (rng (k + 4)) (rng (k + 5))
      let used := if 0 < cfg.jitter then 6 else 3
      p :: triLoop sqrtFn rng vertices normals colors cfg hasN hasC
        triangles weights total n (k + used)
    else
      triLoop sqrtFn rng vertices normals colors cfg hasN hasC
        triangles weights total n (k + 1)

/-- parser.rs lines 222-249: fallback uniform-random vertex sampling used
when fewer than three indices exist.  Each iteration consumes one index
draw, plus three jitter draws when jitter is positive, and always emits a
point. -/
def vertLoop (rng : ℕ → ℚ) (vertices normals colors : List Vec3)
    (cfg : PointCloudConfig) (hasN hasC : Bool) :
    ℕ → ℕ → List Point := fun n k =>
  match n with
  | 0 => []
  | n + 1 =>
    let idx := natDraw (rng k) vertices.length
    let scaled_pos := scaleJitter cfg (vertices.getD idx 0)
      (rng (k + 1)) (rng (k + 2)) (rng (k + 3))
    let p := Point.new scaled_pos
    let p :=
      if hasN ∧ cfg.include_normals ∧ idx < normals.length then
        p.with_normal (normals.getD idx 0)
      else p
    let p :=
      if hasC ∧ cfg.include_colors ∧ idx < colors.length then
        p.with_color (colors.getD idx 0)
      else p
    let used := if 0 < cfg.jitter then 4 else 1
    p :: vertLoop rng vertices normals colors cfg hasN hasC n (k + used)

/-- parser.rs lines 110-131: the Vertices strategy point for enumerate index
i and vertex pos. -/
def vertexPoint (normals colors : List Vec3) (cfg : PointCloudConfig)
    (hasN hasC : Bool) (pair : ℕ × Vec3) : Point :=
  let i := pair.1
  let scaled_pos := cfg.scale • pair.2
  let p := Point.new scaled_pos
  let p :=
    if hasN ∧ cfg.include_normals ∧ i < normals.length then
      p.with_normal (normals.getD i 0)
    else p
  if hasC ∧ cfg.include_colors ∧ i < colors.length then
    p.with_color (colors.getD i 0)
  else p

/-- parser.rs lines 133-252: the shared Uniform/AreaWeighted branch: sample
from triangles when at least three indices exist, otherwise fall back to
random vertex sampling. -/
def sampleByTriangles (sqrtFn : ℚ → ℚ) (rng : ℕ → ℚ)
    (vertices normals colors : List Vec3) (indices : List ℕ)
    (cfg : PointCloudConfig) (hasN hasC : Bool) : List Point :=
  if 3 ≤ indices.length then
    let triangles := chunks3 indices
    let weights := triangleWeights sqrtFn vertices cfg.sampling_strategy triangles
    let total := weights.sum
    triLoop sqrtFn rng vertices normals colors cfg hasN hasC
      triangles weights total cfg.point_count 0
  else
    vertLoop rng vertices normals colors cfg hasN hasC cfg.point_count 0

/-- parser.rs lines 98-254, ModelParser::generate_point_cloud. -/
def generate_point_cloud (sqrtFn : ℚ → ℚ) (rng : ℕ → ℚ)
    (vertices normals colors : List Vec3) (indices : List ℕ)
    (cfg : PointCloudConfig) : List Point :=
  let hasN := !normals.isEmpty
  let hasC := !colors.isEmpty
  match cfg.sampling_strategy with
  | .Vertices =>
      ((vertices.take cfg.point_count).enum).map
        (vertexPoint normals colors cfg hasN hasC)
  | .Uniform =>
      sampleByTriangles sqrtFn rng vertices normals colors indices cfg hasN hasC
  | .AreaWeighted =>
      sampleByTriangles sqrtFn rng vertices normals colors indices cfg hasN hasC

/-! ## Point cloud aggregate (src/point_cloud.rs) -/

/-- src/point_cloud.rs, struct PointCloudMetadata. -/
structure PointCloudMetadata where
  point_count : ℕ
  bounds_min : Vec3
  bounds_max : Vec3
  source_file : String
  has_normals : Bool
  has_colors : Bool
deriving DecidableEq

/-- src/point_cloud.rs, struct PointCloud. -/
structure PointCloud where
  points : List Point
  metadata : PointCloudMetadata
deriving DecidableEq

/-- Component-wise minimum (glam Vec3::min). -/
def vmin (a b : Vec3) : Vec3 := ⟨min a.x b.x, min a.y b.y, min a.z b.z⟩

/-- Component-wise maximum (glam Vec3::max). -/
def vmax (a b : Vec3) : Vec3 := ⟨max a.x b.x, max a.y b.y, max a.z b.z⟩

/-- src/point_cloud.rs, PointCloud::calculate_bounds: min/max scan seeded
from the first point; empty input yields zero vectors. -/
def PointCloud.calculate_bounds (points : List Point) : Vec3 × Vec3 :=
  match points with
  | [] => (0, 0)
  | p0 :: rest =>
      rest.foldl (fun acc p => (vmin acc.1 p.position, vmax acc.2 p.position))
        (p0.position, p0.position)

/-- src/point_cloud.rs, PointCloud::new: metadata is recomputed from the
point list. -/
def PointCloud.new (points : List Point) (source_file : String) : PointCloud :=
  let bounds := PointCloud.calculate_bounds points
  { points := points
    metadata :=
      { point_count := points.length
        bounds_min := bounds.1
        bounds_max := bounds.2
        source_file := source_file
        has_normals := points.any (fun p => p.normal.isSome)
        has_colors := points.any (fun p => p.color.isSome) } }

/-! ## JSON layer (serde_json), modelled at the level of JSON values.

save_to_file serializes with serde_json and load_from_file parses the text
back; the text layer is serde_json's and round-trips JSON values, so the
embedding works with JSON trees directly.  The serde derives on Point skip
the normal/color keys entirely when the option is none
(skip_serializing_if = Option::is_none), and on the way back a missing or
null optional key deserializes to none. -/

/-- JSON values. -/
inductive Json where
  | null : Json
  | bool (b : Bool) : Json
  | num (q : ℚ) : Json
  | str (s : String) : Json
  | arr (items : List Json) : Json
  | obj (fields : List (String × Json)) : Json

/-- Serialize an f32 triple ([f32; 3]) as a 3-element JSON array. -/
def vec3ToJson (v : Vec3) : Json := .arr [.num v.x, .num v.y, .num v.z]

/-- Deserialize a [f32; 3]: exactly three numbers. -/
def vec3FromJson : Json → Option Vec3
  | .arr [.num a, .num b, .num c] => some ⟨a, b, c⟩
  | _ => none

/-- Deserialize a usize: a non-negative integer JSON number. -/
def natFromJson : Json → Option ℕ
  | .num q => if q.den = 1 ∧ 0 ≤ q.num then some q.num.toNat else none
  | _ => none

/-- Deserialize a bool. -/
def boolFromJson : Json → Option Bool
  | .bool b => some b
  | _ => none

/-- Deserialize a string. -/
def strFromJson : Json → Option String
  | .str s => some s
  | _ => none

/-- Deserialize an f32 number. -/
def numFromJson : Json → Option ℚ
  | .num q => some q
  | _ => none

/-- serde Option field semantics: a missing key or an explicit null is
none; otherwise the value must parse. -/
def optVec3Field (fields : List (String × Json)) (key : String) :
    Option (Option Vec3) :=
  match fields.lookup key with
  | none => some none
  | some .null => some none
  | some j => (vec3FromJson j).map some

/-- Serialization of Point: position always; normal and color keys are
emitted only when present. -/
def pointToJson (p : Point) : Json :=
  .obj ([("position", vec3ToJson p.position)]
    ++ (match p.normal with
        | some n => [("normal", vec3ToJson n)]
        | none => [])
    ++ (match p.color with
        | some c => [("color", vec3ToJson c)]
        | none => []))

/-- Deserialization of Point. -/
def pointFromJson : Json → Option Point
  | .obj fields => do
      let pj ← fields.lookup "position"
      let pos ← vec3FromJson pj
      let nrm ← optVec3Field fields "normal"
      let col ← optVec3Field fields "color"
      some ⟨pos, nrm, col⟩
  | _ => none

/-- Serialization of PointCloudMetadata, fields in declaration order. -/
def metadataToJson (m : PointCloudMetadata) : Json :=
  .obj [("point_count", .num m.point_count),
        ("bounds_min", vec3ToJson m.bounds_min),
        ("bounds_max", vec3ToJson m.bounds_max),
        ("source_file", .str m.source_file),
        ("has_normals", .bool m.has_normals),
        ("has_colors", .bool m.has_colors)]

/-- Deserialization of PointCloudMetadata. -/
def metadataFromJson : Json → Option PointCloudMetadata
  | .obj fields => do
      let pc ← fields.lookup "point_count" >>= natFromJson
      let bmin ← fields.lookup "bounds_min" >>= vec3FromJson
      let bmax ← fields.lookup "bounds_max" >>= vec3FromJson
      let sf ← fields.lookup "source_file" >>= strFromJson
      let hn ← fields.lookup "has_normals" >>= boolFromJson
      let hc ← fields.lookup "has_colors" >>= boolFromJson
      some ⟨pc, bmin, bmax, sf, hn, hc⟩
  | _ => none

/-- src/point_cloud.rs, PointCloud::save_to_file: the JSON value written. -/
def pointCloudToJson (pc : PointCloud) : Json :=
  .obj [("points", .arr (pc.points.map pointToJson)),
        ("metadata", metadataToJson pc.metadata)]

/-- src/point_cloud.rs, PointCloud::load_from_file: the parse of a JSON
value back into a cloud. -/
def pointCloudFromJson : Json → Option PointCloud
  | .obj fields => do
      let pj ← fields.lookup "points"
      let pts ← match pj with
        | .arr items => items.mapM pointFromJson
        | _ => none
      let mj ← fields.lookup "metadata"
      let md ← metadataFromJson mj
      some ⟨pts, md⟩
  | _ => none

/-- The key list of a serialized object. -/
def jsonKeys : Json → List String
  | .obj fields => fields.map Prod.fst
  | _ => []

/-- serde Deserialize derive for PointCloudConfig (config.rs line 4): field
values are taken as given, with no clamping anywhere. -/
def configFromJson : Json → Option PointCloudConfig
  | .obj fields => do
      let pc ← fields.lookup "point_count" >>= natFromJson
      let st ← fields.lookup "sampling_strategy" >>= strFromJson
      let strat ← match st with
        | "Uniform" => some SamplingStrategy.Uniform
        | "AreaWeighted" => some SamplingStrategy.AreaWeighted
        | "Vertices" => some SamplingStrategy.Vertices
        | _ => none
      let incn ← fields.lookup "include_normals" >>= boolFromJson
      let incc ← fields.lookup "include_colors" >>= boolFromJson
      let sc ← fields.lookup "scale" >>= numFromJson
      let ji ← fields.lookup "jitter" >>= numFromJson
      some ⟨pc, strat, incn, incc, sc, ji⟩
  | _ => none

/-! ## EPT writer (src/ept.rs) -/

/-- The modulus 2^32 of Rust u32 arithmetic (release builds wrap). -/
def U32 : ℕ := 4294967296

/-- src/ept.rs, struct OctreeKey: four u32 fields, here naturals whose
arithmetic is taken modulo 2^32. -/
structure OctreeKey where
  depth : ℕ
  x : ℕ
  y : ℕ
  z : ℕ
deriving DecidableEq

/-- src/ept.rs, OctreeKey::new. -/
def OctreeKey.new (depth x y z : ℕ) : OctreeKey := ⟨depth, x, y, z⟩

/-- src/ept.rs, OctreeKey::root. -/
def OctreeKey.root : OctreeKey := OctreeKey.new 0 0 0 0

/-- src/ept.rs lines 79-95, OctreeKey::children: depth+1, coordinates
doubled with 0/1 added per axis, in the fixed x-fastest order; all
arithmetic is u32, hence modulo 2^32. -/
def OctreeKey.children (k : OctreeKey) : List OctreeKey :=
  let d := (k.depth + 1) % U32
  let x := k.x * 2 % U32
  let y := k.y * 2 % U32
  let z := k.z * 2 % U32
  [OctreeKey.new d x y z,
   OctreeKey.new d ((x + 1) % U32) y z,
   OctreeKey.new d x ((y + 1) % U32) z,
   OctreeKey.new d ((x + 1) % U32) ((y + 1) % U32) z,
   OctreeKey.new d x y ((z + 1) % U32),
   OctreeKey.new d ((x + 1) % U32) y ((z + 1) % U32),
   OctreeKey.new d x ((y + 1) % U32) ((z + 1) % U32),
   OctreeKey.new d ((x + 1) % U32) ((y + 1) % U32) ((z + 1) % U32)]

/-- src/ept.rs, OctreeKey::to_path_string: "depth-x-y-z". -/
def OctreeKey.to_path_string (k : OctreeKey) : String :=
  toString k.depth ++ "-" ++ toString k.x ++ "-" ++ toString k.y
    ++ "-" ++ toString k.z

/-- src/ept.rs, struct EptDimension. -/
structure EptDimension where
  name : String
  data_type : String
  size : ℕ
deriving DecidableEq

/-- src/ept.rs, struct EptSrs. -/
structure EptSrs where
  authority : String
  horizontal : String
  vertical : String
  wkt : String
deriving DecidableEq

/-- src/ept.rs, struct EptMetadata.  Bounds are f64 values; the padding
computation needs a real square root, so they live in the reals. -/
structure EptMetadata where
  bounds : List ℝ
  bounds_conforming : List ℝ
  points : ℕ
  schema : List EptDimension
  srs : EptSrs
  data_type : String
  hierarchy_type : String
  span : ℕ
  version : String

/-- f32::MAX as an exact rational: 2^128 - 2^104. -/
def f32MAX : ℚ := 340282346638528859811704183484516925440

/-- The padding term of ept.rs line 252: Euclidean length of (max - min)
times 0.01. -/
noncomputable def boundsPad (mn mx : Vec3) : ℝ :=
  Real.sqrt ((Vec3.dot (mx - mn) (mx - mn) : ℚ) : ℝ) * (1 / 100)

/-- src/ept.rs lines 234-260, EptBuilder::calculate_bounds: an empty cloud
yields six zeros; otherwise reduce component-wise min/max from the
f32::MAX/f32::MIN identity and pad both ends of every axis.  The rayon
reduction is order-insensitive for min/max, so it is modelled as a left
fold.  The builder receives self but reads none of its fields. -/
noncomputable def EptBuilder.calculate_bounds_points (points : List Point) :
    List ℝ :=
  if points.isEmpty then [0, 0, 0, 0, 0, 0]
  else
    let mm := points.foldl
      (fun acc p => (vmin acc.1 p.position, vmax acc.2 p.position))
      (⟨f32MAX, f32MAX, f32MAX⟩, ⟨-f32MAX, -f32MAX, -f32MAX⟩)
    let padding := boundsPad mm.1 mm.2
    [(mm.1.x : ℝ) - padding, (mm.1.y : ℝ) - padding, (mm.1.z : ℝ) - padding,
     (mm.2.x : ℝ) + padding, (mm.2.y : ℝ) + padding, (mm.2.z : ℝ) + padding]

/-- src/ept.rs, struct EptBuilder: the two tuning knobs. -/
structure EptBuilder where
  max_points_per_tile : ℕ
  max_depth : ℕ
deriving DecidableEq

/-- src/ept.rs, impl Default for EptBuilder. -/
def EptBuilder.mkDefault : EptBuilder := ⟨100000, 10⟩

/-- src/ept.rs, EptBuilder::new. -/
def EptBuilder.new : EptBuilder := EptBuilder.mkDefault

/-- src/ept.rs, EptBuilder::with_max_points_per_tile. -/
def EptBuilder.with_max_points_per_tile (b : EptBuilder) (m : ℕ) : EptBuilder :=
  { b with max_points_per_tile := m }

/-- src/ept.rs, EptBuilder::with_max_depth. -/
def EptBuilder.with_max_depth (b : EptBuilder) (d : ℕ) : EptBuilder :=
  { b with max_depth := d }

/-- src/ept.rs, EptBuilder::calculate_bounds as the method called on self;
self is ignored by the body. -/
noncomputable def EptBuilder.calculate_bounds (b : EptBuilder)
    (points : List Point) : List ℝ :=
  EptBuilder.calculate_bounds_points points

/-- Rust saturating float-to-u8 cast used at ept.rs lines 289-291: truncate
toward zero and clamp to 0..255. -/
def floatToU8 (q : ℚ) : ℕ :=
  if q ≤ 0 then 0 else min 255 (Int.toNat ⌊q⌋)

/-- ept.rs lines 285-298: per-point color bytes: present colors are scaled
from [0,1] floats by 255 and truncated; absent colors default to white;
without the cloud-level flag a dummy black is produced (and never
written). -/
def pointColorBytes (has_colors : Bool) (p : Point) : ℕ × ℕ × ℕ :=
  if has_colors then
    match p.color with
    | some c => (floatToU8 (c.x * 255), floatToU8 (c.y * 255), floatToU8 (c.z * 255))
    | none => (255, 255, 255)
  else (0, 0, 0)

/-- ept.rs lines 300-304: per-point normal, defaulting to zero. -/
def pointNormalData (has_normals : Bool) (p : Point) : Vec3 :=
  if has_normals then p.normal.getD 0 else 0

/-- ept.rs lines 152-204: the schema, in the fixed X,Y,Z, then color bytes,
then normal floats order. -/
def buildSchema (has_colors has_normals : Bool) : List EptDimension :=
  [⟨"X", "floating", 4⟩, ⟨"Y", "floating", 4⟩, ⟨"Z", "floating", 4⟩]
    ++ (if has_colors then
          [⟨"Red", "unsigned", 1⟩, ⟨"Green", "unsigned", 1⟩,
           ⟨"Blue", "unsigned", 1⟩]
        else [])
    ++ (if has_normals then
          [⟨"NormalX", "floating", 4⟩, ⟨"NormalY", "floating", 4⟩,
           ⟨"NormalZ", "floating", 4⟩]
        else [])

/-- The pure artifacts produced by EptBuilder::build: the ept.json
metadata, the root tile data handed to write_binary_tile, the tile file
stem, and the hierarchy map written to ept-hierarchy/0-0-0-0.json. -/
structure BuildOutput where
  metadata : EptMetadata
  tile_positions : List Vec3
  tile_colors : Option (List (ℕ × ℕ × ℕ))
  tile_normals : Option (List Vec3)
  tile_name : String
  hierarchy : List (String × ℤ)

/-- src/ept.rs lines 141-232 and 262-337, EptBuilder::build plus
build_octree, with the filesystem stripped away: everything written is a
function of the point cloud alone. -/
noncomputable def EptBuilder.build (b : EptBuilder) (pc : PointCloud) :
    BuildOutput :=
  let bounds := EptBuilder.calculate_bounds b pc.points
  let has_colors := pc.metadata.has_colors
  let has_normals := pc.metadata.has_normals
  let root_key := OctreeKey.root
  { metadata :=
      { bounds := bounds
        bounds_conforming := bounds
        points := pc.points.length
        schema := buildSchema has_colors has_normals
        srs := ⟨"EPSG", "4978", "", ""⟩
        data_type := "binary"
        hierarchy_type := "json"
        span := 128
        version := "1.0.0" }
    tile_positions := pc.points.map (fun p => p.position)
    tile_colors :=
      if has_colors then some (pc.points.map (pointColorBytes has_colors))
      else none
    tile_normals :=
      if has_normals then some (pc.points.map (pointNormalData has_normals))
      else none
    tile_name := root_key.to_path_string ++ ".bin"
    hierarchy := [(root_key.to_path_string, (pc.points.length : ℤ))] }

/-- f32::to_le_bytes on a stored bit pattern (a natural below 2^32): the
four bytes, least significant first. -/
def f32le (bits : ℕ) : List ℕ :=
  [bits % 256, bits / 256 % 256, bits / 65536 % 256, bits / 16777216 % 256]

/-- src/ept.rs lines 351-369: one binary record: position floats, then the
color bytes when a color vector is given, then the normal floats when a
normal vector is given.  Floats are identified by their 32-bit patterns. -/
def tileRecord (pos : ℕ × ℕ × ℕ) (col : Option (ℕ × ℕ × ℕ))
    (nrm : Option (ℕ × ℕ × ℕ)) : List ℕ :=
  f32le pos.1 ++ f32le pos.2.1 ++ f32le pos.2.2
    ++ (match col with
        | some c => [c.1, c.2.1, c.2.2]
        | none => [])
    ++ (match nrm with
        | some n => f32le n.1 ++ f32le n.2.1 ++ f32le n.2.2
        | none => [])

/-- src/ept.rs lines 339-373, EptBuilder::write_binary_tile: the byte
stream is one record per position, in array order, indexing the color and
normal vectors at the same position index when they are given. -/
def write_binary_tile (positions : List (ℕ × ℕ × ℕ))
    (colors : Option (List (ℕ × ℕ × ℕ)))
    (normals : Option (List (ℕ × ℕ × ℕ))) : List ℕ :=
  ((List.range positions.length).map (fun i =>
      tileRecord (positions.getD i (0, 0, 0))
        (colors.map (fun cv => cv.getD i (0, 0, 0)))
        (normals.map (fun nv => nv.getD i (0, 0, 0))))).flatten

/-! ## Theorems -/

/-- A square-root stand-in that is identically zero (nonnegative, as any
model of f32::sqrt on nonnegative inputs must be). -/
def sqZero : ℚ → ℚ := fun _ => 0

/-- A constant random stream. -/
def rngHalf : ℕ → ℚ := fun _ => 1 / 2

/-- C8: children() returns exactly 8 keys, all at depth+1, with coordinates
doubled and 0/1 added per axis (as u32 arithmetic, i.e. modulo 2^32), in
the fixed x-fastest enumeration order. -/
theorem octree_children_spec (k : OctreeKey) :
    k.children =
      [⟨(k.depth + 1) % U32, k.x * 2 % U32, k.y * 2 % U32, k.z * 2 % U32⟩,
       ⟨(k.depth + 1) % U32, (k.x * 2 % U32 + 1) % U32, k.y * 2 % U32,
        k.z * 2 % U32⟩,
       ⟨(k.depth + 1) % U32, k.x * 2 % U32, (k.y * 2 % U32 + 1) % U32,
        k.z * 2 % U32⟩,
       ⟨(k.depth + 1) % U32, (k.x * 2 % U32 + 1) % U32,
        (k.y * 2 % U32 + 1) % U32, k.z * 2 % U32⟩,
       ⟨(k.depth + 1) % U32, k.x * 2 % U32, k.y * 2 % U32,
        (k.z * 2 % U32 + 1) % U32⟩,
       ⟨(k.depth + 1) % U32, (k.x * 2 % U32 + 1) % U32, k.y * 2 % U32,
        (k.z * 2 % U32 + 1) % U32⟩,
       ⟨(k.depth + 1) % U32, k.x * 2 % U32, (k.y * 2 % U32 + 1) % U32,
        (k.z * 2 % U32 + 1) % U32⟩,
       ⟨(k.depth + 1) % U32, (k.x * 2 % U32 + 1) % U32,
        (k.y * 2 % U32 + 1) % U32, (k.z * 2 % U32 + 1) % U32⟩]
    ∧ k.children.length = 8
    ∧ ∀ c ∈ k.children, c.depth = (k.depth + 1) % U32 := by
  refine ⟨rfl, rfl, ?_⟩
  intro c hc
  simp [OctreeKey.children, OctreeKey.new] at hc
  rcases hc with h | h | h | h | h | h | h | h <;> subst h <;> rfl

/-- C10: the EPT build output (metadata, tile data, hierarchy) does not
depend on max_points_per_tile or max_depth: two builders differing only in
those knobs produce identical artifacts. -/
theorem ept_build_independent_of_limits (pc : PointCloud) (m1 d1 m2 d2 : ℕ) :
    EptBuilder.build
        ((EptBuilder.new.with_max_points_per_tile m1).with_max_depth d1) pc
      = EptBuilder.build
        ((EptBuilder.new.with_max_points_per_tile m2).with_max_depth d2) pc :=
  rfl

theorem tileRecord_length (pos : ℕ × ℕ × ℕ) (col nrm : Option (ℕ × ℕ × ℕ)) :
    (tileRecord pos col nrm).length
      = 12 + (if col.isSome then 3 else 0) + (if nrm.isSome then 12 else 0) := by
  cases col <;> cases nrm <;> simp [tileRecord, f32le]

theorem write_binary_tile_length (positions : List (ℕ × ℕ × ℕ))
    (colors : Option (List (ℕ × ℕ × ℕ)))
    (normals : Option (List (ℕ × ℕ × ℕ))) :
    (write_binary_tile positions colors normals).length
      = positions.length
        * (12 + (if colors.isSome then 3 else 0)
            + (if normals.isSome then 12 else 0)) := by
  have hmaps : ∀ i : ℕ,
      (colors.map (fun cv => cv.getD i (0, 0, 0))).isSome = colors.isSome
        ∧ (normals.map (fun nv => nv.getD i (0, 0, 0))).isSome
            = normals.isSome := by
    intro i
    cases colors <;> cases normals <;> simp
  simp only [write_binary_tile, List.length_flatten, List.map_map]
  have hconst : ((List.range positions.length).map
      (List.length ∘ fun i =>
        tileRecord (positions.getD i (0, 0, 0))
          (colors.map (fun cv => cv.getD i (0, 0, 0)))
          (normals.map (fun nv => nv.getD i (0, 0, 0)))))
      = (List.range positions.length).map (fun _ =>
          12 + (if colors.isSome then 3 else 0)
            + (if normals.isSome then 12 else 0)) := by
    apply List.map_congr_left
    intro i _
    simp only [Function.comp]
    rw [tileRecord_length, (hmaps i).1, (hmaps i).2]
  rw [hconst]
  simp [List.map_const', mul_comm]

/-- C5: each binary tile record is the 12 position bytes, then 3 color
bytes exactly when colors are present, then 12 normal bytes exactly when
normals are present; the tile is one record per point in array order, so
its total length is the point count times the record size; for the tile
data produced by the EPT builder the color/normal groups are present
exactly when the cloud has colors/normals, giving N*12, N*15, or N*27
bytes (under any bit-level float encoding). -/
theorem write_binary_tile_layout (positions : List (ℕ × ℕ × ℕ))
    (colors : Option (List (ℕ × ℕ × ℕ)))
    (normals : Option (List (ℕ × ℕ × ℕ))) :
    write_binary_tile positions colors normals
      = ((List.range positions.length).map (fun i =>
          tileRecord (positions.getD i (0, 0, 0))
            (colors.map (fun cv => cv.getD i (0, 0, 0)))
            (normals.map (fun nv => nv.getD i (0, 0, 0))))).flatten
    ∧ (∀ (pos : ℕ × ℕ × ℕ) (col nrm : Option (ℕ × ℕ × ℕ)),
        (tileRecord pos col nrm).length
          = 12 + (if col.isSome then 3 else 0) + (if nrm.isSome then 12 else 0))
    ∧ (write_binary_tile positions colors normals).length
        = positions.length
          * (12 + (if colors.isSome then 3 else 0)
              + (if normals.isSome then 12 else 0))
    ∧ (∀ (enc : Vec3 → ℕ × ℕ × ℕ) (b2 : EptBuilder) (pc : PointCloud),
        (write_binary_tile ((EptBuilder.build b2 pc).tile_positions.map enc)
            (EptBuilder.build b2 pc).tile_colors
            (((EptBuilder.build b2 pc).tile_normals).map
              (fun l => l.map enc))).length
          = pc.points.length
            * (12 + (if pc.metadata.has_colors then 3 else 0)
                + (if pc.metadata.has_normals then 12 else 0))) := by
  refine ⟨rfl, tileRecord_length, write_binary_tile_length _ _ _, ?_⟩
  intro enc b2 pc
  rw [write_binary_tile_length]
  have hlen : ((EptBuilder.build b2 pc).tile_positions.map enc).length
      = pc.points.length := by
    simp [EptBuilder.build]
  have hcol : ((EptBuilder.build b2 pc).tile_colors).isSome
      = pc.metadata.has_colors := by
    simp only [EptBuilder.build]
    cases pc.metadata.has_colors <;> simp
  have hnrm : (((EptBuilder.build b2 pc).tile_normals).map
      (fun l => l.map enc)).isSome = pc.metadata.has_normals := by
    simp only [EptBuilder.build]
    cases pc.metadata.has_normals <;> simp
  rw [hlen, hcol, hnrm]

/-- A configuration value with jitter outside [0,1].  All six fields of the
Rust PointCloudConfig are public, so this literal is constructible by any
client, and the serde Deserialize derive builds it from JSON without any
clamping. -/
def badConfig : PointCloudConfig :=
  { point_count := 2000
    sampling_strategy := .AreaWeighted
    include_normals := true
    include_colors := true
    scale := 1
    jitter := 5 }

/-- The JSON document the serde derive deserializes into badConfig. -/
def badConfigJson : Json :=
  .obj [("point_count", .num 2000),
        ("sampling_strategy", .str "AreaWeighted"),
        ("include_normals", .bool true),
        ("include_colors", .bool true),
        ("scale", .num 1),
        ("jitter", .num 5)]

/-- C9 counterexample: a PointCloudConfig whose stored jitter is 5 is
constructible (here via the derived deserializer, which performs no
clamping; the all-public struct literal gives the same value), so not
every constructible configuration has jitter in [0,1]. -/
theorem config_jitter_unclamped :
    configFromJson badConfigJson = some badConfig
      ∧ ¬ (0 ≤ badConfig.jitter ∧ badConfig.jitter ≤ 1) := by
  constructor
  · simp [configFromJson, badConfigJson, badConfig, natFromJson, strFromJson,
      boolFromJson, numFromJson, List.lookup]
  · intro h
    have := h.2
    norm_num [badConfig] at this

/-- One step of the fluent builder API on PointCloudConfig. -/
inductive ConfigStep where
  | strategy (s : SamplingStrategy)
  | normals (b : Bool)
  | colors (b : Bool)
  | scale (q : ℚ)
  | jitter (q : ℚ)

/-- Apply one with_* builder call. -/
def applyConfigStep (c : PointCloudConfig) : ConfigStep → PointCloudConfig
  | .strategy s => c.with_strategy s
  | .normals b => c.with_normals b
  | .colors b => c.with_colors b
  | .scale q => c.with_scale q
  | .jitter q => c.with_jitter q

theorem applyConfigStep_jitter_invariant (c : PointCloudConfig)
    (h : 0 ≤ c.jitter ∧ c.jitter ≤ 1) (s : ConfigStep) :
    0 ≤ (applyConfigStep c s).jitter ∧ (applyConfigStep c s).jitter ≤ 1 := by
  cases s <;>
    simp [applyConfigStep, PointCloudConfig.with_strategy,
      PointCloudConfig.with_normals, PointCloudConfig.with_colors,
      PointCloudConfig.with_scale, PointCloudConfig.with_jitter, h.1, h.2]

theorem foldl_config_jitter_invariant (steps : List ConfigStep) :
    ∀ c : PointCloudConfig, 0 ≤ c.jitter → c.jitter ≤ 1 →
      0 ≤ (steps.foldl applyConfigStep c).jitter
        ∧ (steps.foldl applyConfigStep c).jitter ≤ 1 := by
  induction steps with
  | nil => exact fun c h0 h1 => ⟨h0, h1⟩
  | cons s rest ih =>
      intro c h0 h1
      have := applyConfigStep_jitter_invariant c ⟨h0, h1⟩ s
      exact ih _ this.1 this.2

/-- C9 amended: every configuration built through the builder API (new /
default followed by any chain of with_* calls) has jitter stored already
clamped to [0,1]; but configurations built by a public struct literal or
by the serde deserializer bypass the clamping (see the counterexample). -/
theorem builder_config_jitter_clamped (n : ℕ) (steps : List ConfigStep) :
    0 ≤ (steps.foldl applyConfigStep (PointCloudConfig.new n)).jitter
      ∧ (steps.foldl applyConfigStep (PointCloudConfig.new n)).jitter ≤ 1 :=
  foldl_config_jitter_invariant steps (PointCloudConfig.new n)
    (by norm_num [PointCloudConfig.new, PointCloudConfig.mkDefault])
    (by norm_num [PointCloudConfig.new, PointCloudConfig.mkDefault])

/-- C4: when every triangle weight is zero (all-degenerate AreaWeighted
mesh, total weight zero), the weighted selection loop returns index 0 for
every possible draw, hence the first triangle is selected deterministically
on every iteration. -/
theorem area_weighted_zero_total_selects_first (sqrtFn : ℚ → ℚ)
    (vertices : List Vec3) (tris : List (List ℕ)) (u : ℚ)
    (hw : ∀ w ∈ triangleWeights sqrtFn vertices .AreaWeighted tris, w = 0) :
    selectTri (triangleWeights sqrtFn vertices .AreaWeighted tris)
      (u * (triangleWeights sqrtFn vertices .AreaWeighted tris).sum) = 0 := by
  have hsum : (triangleWeights sqrtFn vertices .AreaWeighted tris).sum = 0 :=
    List.sum_eq_zero hw
  rw [hsum, mul_zero]
  cases h : triangleWeights sqrtFn vertices .AreaWeighted tris with
  | nil => rfl
  | cons w rest =>
      have hw0 : w = 0 := hw w (by rw [h]; exact List.mem_cons_self w rest)
      simp [selectTri, selectAux, hw0]

/-- C4 witness at a concrete degenerate mesh. -/
theorem area_weighted_zero_total_selects_first_witness :
    (∀ w ∈ triangleWeights sqZero [] .AreaWeighted (chunks3 [0, 0, 0]), w = 0)
      ∧ selectTri (triangleWeights sqZero [] .AreaWeighted (chunks3 [0, 0, 0]))
          ((2 / 3) * (triangleWeights sqZero [] .AreaWeighted
            (chunks3 [0, 0, 0])).sum) = 0 := by
  have hw : ∀ w ∈ triangleWeights sqZero [] .AreaWeighted (chunks3 [0, 0, 0]),
      w = 0 := by
    intro w hmem
    simp [triangleWeights, chunks3, sqZero] at hmem
    exact hmem
  exact ⟨hw, area_weighted_zero_total_selects_first sqZero [] _ (2 / 3) hw⟩

/-! ### Chunking and weighted-selection lemmas (for C1) -/

theorem chunks3_getD_full : ∀ (l : List ℕ) (i : ℕ), i < l.length / 3 →
    ((chunks3 l).getD i []).length = 3
  | _a :: _b :: _c :: _rest, 0, _ => by simp [chunks3]
  | a :: b :: c :: rest, i + 1, h => by
      have hlt : i < rest.length / 3 := by
        simp only [List.length_cons] at h
        omega
      simpa [chunks3] using chunks3_getD_full rest i hlt
  | [], i, h => by
      exfalso
      have h0 : ([] : List ℕ).length / 3 = 0 := by simp
      omega
  | [_a], i, h => by
      exfalso
      have h0 : ([_a] : List ℕ).length / 3 = 0 := by simp
      omega
  | [_a, _b], i, h => by
      exfalso
      have h0 : ([_a, _b] : List ℕ).length / 3 = 0 := by simp
      omega

theorem chunks3_drop_short : ∀ (l : List ℕ),
    ∀ t ∈ (chunks3 l).drop (l.length / 3), t.length < 3
  | a :: b :: c :: rest => by
      intro t ht
      have hdiv : (a :: b :: c :: rest).length / 3 = rest.length / 3 + 1 := by
        simp only [List.length_cons]
        omega
      rw [hdiv] at ht
      simp only [chunks3, List.drop_succ_cons] at ht
      exact chunks3_drop_short rest t ht
  | [] => by intro t ht; simp [chunks3] at ht
  | [_a] => by
      intro t ht
      have h0 : ([_a] : List ℕ).length / 3 = 0 := by simp
      rw [h0, List.drop_zero] at ht
      have ht2 : t = [_a] := by simpa [chunks3] using ht
      subst ht2
      simp
  | [_a, _b] => by
      intro t ht
      have h0 : ([_a, _b] : List ℕ).length / 3 = 0 := by simp
      rw [h0, List.drop_zero] at ht
      have ht2 : t = [_a, _b] := by simpa [chunks3] using ht
      subst ht2
      simp

theorem chunks3_length : ∀ (l : List ℕ), (chunks3 l).length = (l.length + 2) / 3
  | _a :: _b :: _c :: rest => by
      simp only [chunks3, List.length_cons, chunks3_length rest]
      omega
  | [] => by simp [chunks3]
  | [_a] => by simp [chunks3]
  | [_a, _b] => by simp [chunks3]

theorem selectAux_lt : ∀ (weights : List ℚ) (ws : ℚ) (i m : ℕ), 0 < m →
    m ≤ weights.length → ws ≤ (weights.take m).sum → selectAux weights ws i < i + m
  | [], _ws, _i, m, hm, hml, _hws => by simp at hml; omega
  | w :: rest, ws, i, m, hm, hml, hws => by
      simp only [selectAux]
      split
      · omega
      · rename_i hbreak
        push_neg at hbreak
        cases m with
        | zero => omega
        | succ m' =>
          cases m' with
          | zero =>
              exfalso
              simp only [List.take_succ_cons, List.take_zero, List.sum_cons,
                List.sum_nil, add_zero] at hws
              linarith
          | succ m'' =>
              have hrec := selectAux_lt rest (ws - w) (i + 1) (m'' + 1)
                (by omega)
                (by simp only [List.length_cons] at hml; omega)
                (by
                  simp only [List.take_succ_cons, List.sum_cons] at hws
                  linarith)
              omega

theorem selectTri_nonpos (weights : List ℚ) (ws : ℚ) (hws : ws ≤ 0)
    (hw : ∀ w ∈ weights, 0 ≤ w) : selectTri weights ws = 0 := by
  cases weights with
  | nil => rfl
  | cons w rest =>
      have hcond : ws - w ≤ 0 := by
        have := hw w (List.mem_cons_self w rest)
        linarith
      simp [selectTri, selectAux, hcond]

theorem triangleWeights_length (sqrtFn : ℚ → ℚ) (vertices : List Vec3)
    (strategy : SamplingStrategy) (tris : List (List ℕ)) :
    (triangleWeights sqrtFn vertices strategy tris).length = tris.length := by
  cases strategy <;> simp [triangleWeights]

theorem areaWeights_nonneg (sqrtFn : ℚ → ℚ) (vertices : List Vec3)
    (tris : List (List ℕ)) (hsqrt : ∀ q, 0 ≤ sqrtFn q) :
    ∀ w ∈ triangleWeights sqrtFn vertices .AreaWeighted tris, 0 ≤ w := by
  intro w hw
  simp only [triangleWeights, List.mem_map] at hw
  obtain ⟨t, _, rfl⟩ := hw
  rcases t with _ | ⟨i0, _ | ⟨i1, _ | ⟨i2, _ | ⟨i3, rest⟩⟩⟩⟩
  · exact le_refl 0
  · exact le_refl 0
  · exact le_refl 0
  · exact mul_nonneg (hsqrt _) (by norm_num)
  · exact le_refl 0

theorem areaWeights_drop_zero (sqrtFn : ℚ → ℚ) (vertices : List Vec3)
    (indices : List ℕ) :
    ∀ w ∈ (triangleWeights sqrtFn vertices .AreaWeighted
        (chunks3 indices)).drop (indices.length / 3), w = 0 := by
  intro w hw
  simp only [triangleWeights, ← List.map_drop, List.mem_map] at hw
  obtain ⟨t, ht, rfl⟩ := hw
  have hshort : t.length < 3 := chunks3_drop_short indices t ht
  rcases t with _ | ⟨i0, _ | ⟨i1, _ | ⟨i2, rest⟩⟩⟩
  · rfl
  · rfl
  · rfl
  · exfalso
    simp only [List.length_cons] at hshort
    omega

theorem areaSelect_lt (sqrtFn : ℚ → ℚ) (vertices : List Vec3)
    (indices : List ℕ) (hsqrt : ∀ q, 0 ≤ sqrtFn q) (hlen : 3 ≤ indices.length)
    (u : ℚ) (hu0 : 0 ≤ u) (hu1 : u < 1) :
    selectTri (triangleWeights sqrtFn vertices .AreaWeighted (chunks3 indices))
      (u * (triangleWeights sqrtFn vertices .AreaWeighted
        (chunks3 indices)).sum) < indices.length / 3 := by
  have hnn := areaWeights_nonneg sqrtFn vertices (chunks3 indices) hsqrt
  have hF : 1 ≤ indices.length / 3 := by omega
  have hWlen : indices.length / 3
      ≤ (triangleWeights sqrtFn vertices .AreaWeighted (chunks3 indices)).length := by
    rw [triangleWeights_length, chunks3_length]
    omega
  have hsumnn : 0 ≤ (triangleWeights sqrtFn vertices .AreaWeighted
      (chunks3 indices)).sum := List.sum_nonneg hnn
  rcases eq_or_lt_of_le hsumnn with hz | hpos
  · rw [← hz, mul_zero, selectTri_nonpos _ 0 le_rfl hnn]
    omega
  · have hws : u * (triangleWeights sqrtFn vertices .AreaWeighted
        (chunks3 indices)).sum
        < (triangleWeights sqrtFn vertices .AreaWeighted (chunks3 indices)).sum := by
      nlinarith
    have htake : ((triangleWeights sqrtFn vertices .AreaWeighted
        (chunks3 indices)).take (indices.length / 3)).sum
        = (triangleWeights sqrtFn vertices .AreaWeighted (chunks3 indices)).sum := by
      have hsplit := List.sum_take_add_sum_drop
        (triangleWeights sqrtFn vertices .AreaWeighted (chunks3 indices))
        (indices.length / 3)
      have hdrop : ((triangleWeights sqrtFn vertices .AreaWeighted
          (chunks3 indices)).drop (indices.length / 3)).sum = 0 :=
        List.sum_eq_zero (areaWeights_drop_zero sqrtFn vertices indices)
      linarith
    have := selectAux_lt
      (triangleWeights sqrtFn vertices .AreaWeighted (chunks3 indices))
      (u * (triangleWeights sqrtFn vertices .AreaWeighted (chunks3 indices)).sum)
      0 (indices.length / 3) (by omega) hWlen
      (by rw [htake]; exact le_of_lt hws)
    simpa [selectTri] using this

theorem uniformSelect_lt (sqrtFn : ℚ → ℚ) (vertices : List Vec3)
    (indices : List ℕ) (hlen : 3 ≤ indices.length)
    (hmod : indices.length % 3 = 0)
    (u : ℚ) (hu0 : 0 ≤ u) (hu1 : u < 1) :
    selectTri (triangleWeights sqrtFn vertices .Uniform (chunks3 indices))
      (u * (triangleWeights sqrtFn vertices .Uniform
        (chunks3 indices)).sum) < indices.length / 3 := by
  have hrep : triangleWeights sqrtFn vertices .Uniform (chunks3 indices)
      = List.replicate (indices.length / 3) 1 := by
    have hcl : (chunks3 indices).length = indices.length / 3 := by
      rw [chunks3_length]
      omega
    simp [triangleWeights, hcl]
  have hFpos : 1 ≤ indices.length / 3 := by omega
  have hsum : (List.replicate (indices.length / 3) (1 : ℚ)).sum
      = (indices.length / 3 : ℕ) := by
    simp [List.sum_replicate]
  rw [hrep, hsum]
  have hNpos : (0 : ℚ) < (indices.length / 3 : ℕ) := by
    exact_mod_cast hFpos
  have hws : u * ((indices.length / 3 : ℕ) : ℚ)
      < ((indices.length / 3 : ℕ) : ℚ) := by nlinarith
  have := selectAux_lt (List.replicate (indices.length / 3) 1)
    (u * ((indices.length / 3 : ℕ) : ℚ)) 0 (indices.length / 3)
    (by omega) (by simp)
    (by
      rw [List.take_replicate, min_self]
      rw [hsum]
      exact le_of_lt hws)
  simpa [selectTri] using this

theorem triLoop_length_full (sqrtFn : ℚ → ℚ) (rng : ℕ → ℚ)
    (vertices normals colors : List Vec3) (cfg : PointCloudConfig)
    (hasN hasC : Bool) (triangles : List (List ℕ)) (weights : List ℚ)
    (total : ℚ)
    (hfull : ∀ k, (triangles.getD (selectTri weights (rng k * total)) []).length
      = 3) :
    ∀ n k, (triLoop sqrtFn rng vertices normals colors cfg hasN hasC
      triangles weights total n k).length = n := by
  intro n
  induction n with
  | zero => intro k; rfl
  | succ n ih =>
      intro k
      simp only [triLoop]
      rw [if_pos (hfull k)]
      simp only [List.length_cons]
      rw [ih]

/-- Config used by the C1 counterexample: one point, Uniform strategy. -/
def cexCfg : PointCloudConfig :=
  { point_count := 1
    sampling_strategy := .Uniform
    include_normals := false
    include_colors := false
    scale := 1
    jitter := 0 }

/-- A random stream that always draws 3/4. -/
def rng34 : ℕ → ℚ := fun _ => 3 / 4

/-- C1 counterexample: with Uniform strategy and the 4-entry index list
[0,0,0,0], the trailing partial chunk [0] receives weight 1 (not zero), the
draw 3/4 selects it, and the iteration is skipped, so only 0 of the
requested 1 points are produced. -/
theorem uniform_partial_chunk_loses_point :
    (generate_point_cloud sqZero rng34 [0] [] [] [0, 0, 0, 0] cexCfg).length
      ≠ cexCfg.point_count := by
  have hgen : generate_point_cloud sqZero rng34 [0] [] [] [0, 0, 0, 0] cexCfg
      = [] := by
    norm_num [generate_point_cloud, cexCfg, sampleByTriangles, chunks3,
      triangleWeights, triLoop, selectTri, selectAux, rng34]
  rw [hgen]
  norm_num [cexCfg]

/-- C1 corrected: for an index list with at least one full triangle and
unit-interval random draws, the AreaWeighted strategy always emits exactly
point_count points, and the Uniform strategy does so when the index list
length is a multiple of 3 (no partial chunk); moreover under AreaWeighted
every weight beyond the full chunks (in particular the trailing partial
chunk, if any) is zero, and the weighted selection always lands on a full
chunk, so the partial chunk is never sampled.  (Under Uniform a partial
chunk has weight 1 and its selection skips an iteration; see the
counterexample.) -/
theorem generate_point_cloud_count_exact (sqrtFn : ℚ → ℚ) (rng : ℕ → ℚ)
    (vertices normals colors : List Vec3) (indices : List ℕ)
    (cfg : PointCloudConfig)
    (hsqrt : ∀ q, 0 ≤ sqrtFn q)
    (hrng : ∀ k, 0 ≤ rng k ∧ rng k < 1)
    (hlen : 3 ≤ indices.length)
    (hstrat : cfg.sampling_strategy = .AreaWeighted
      ∨ (cfg.sampling_strategy = .Uniform ∧ indices.length % 3 = 0)) :
    (generate_point_cloud sqrtFn rng vertices normals colors indices
        cfg).length = cfg.point_count
    ∧ (∀ w ∈ (triangleWeights sqrtFn vertices .AreaWeighted
          (chunks3 indices)).drop (indices.length / 3), w = 0)
    ∧ (∀ u : ℚ, 0 ≤ u → u < 1 →
        selectTri (triangleWeights sqrtFn vertices .AreaWeighted
            (chunks3 indices))
          (u * (triangleWeights sqrtFn vertices .AreaWeighted
            (chunks3 indices)).sum) < indices.length / 3) := by
  refine ⟨?_, areaWeights_drop_zero sqrtFn vertices indices,
    fun u hu0 hu1 => areaSelect_lt sqrtFn vertices indices hsqrt hlen u hu0 hu1⟩
  obtain ⟨pc, strat, incn, incc, scale, jitter⟩ := cfg
  rcases hstrat with hs | ⟨hs, hmod⟩ <;> simp only at hs <;> subst hs
  · simp only [generate_point_cloud, sampleByTriangles, if_pos hlen]
    exact triLoop_length_full _ _ _ _ _ _ _ _ _ _ _
      (fun k => chunks3_getD_full indices _
        (areaSelect_lt sqrtFn vertices indices hsqrt hlen (rng k)
          (hrng k).1 (hrng k).2)) pc 0
  · simp only [generate_point_cloud, sampleByTriangles, if_pos hlen]
    exact triLoop_length_full _ _ _ _ _ _ _ _ _ _ _
      (fun k => chunks3_getD_full indices _
        (uniformSelect_lt sqrtFn vertices indices hlen hmod (rng k)
          (hrng k).1 (hrng k).2)) pc 0

/-- Config used by the C1 witness: two points, AreaWeighted strategy. -/
def cfgAW : PointCloudConfig :=
  { point_count := 2
    sampling_strategy := .AreaWeighted
    include_normals := false
    include_colors := false
    scale := 1
    jitter := 0 }

/-- C1 witness at a concrete one-triangle mesh. -/
theorem generate_point_cloud_count_exact_witness :
    (generate_point_cloud sqZero rngHalf [0] [] [] [0, 0, 0] cfgAW).length
        = cfgAW.point_count
    ∧ (∀ w ∈ (triangleWeights sqZero [0] .AreaWeighted
          (chunks3 [0, 0, 0])).drop (([0, 0, 0] : List ℕ).length / 3), w = 0)
    ∧ (∀ u : ℚ, 0 ≤ u → u < 1 →
        selectTri (triangleWeights sqZero [0] .AreaWeighted
            (chunks3 [0, 0, 0]))
          (u * (triangleWeights sqZero [0] .AreaWeighted
            (chunks3 [0, 0, 0])).sum) < ([0, 0, 0] : List ℕ).length / 3) :=
  generate_point_cloud_count_exact sqZero rngHalf [0] [] [] [0, 0, 0] cfgAW
    (fun _ => le_refl 0)
    (fun _ => ⟨by norm_num [rngHalf], by norm_num [rngHalf]⟩)
    (by norm_num)
    (Or.inl rfl)

/-! ### Vertices strategy (C2) -/

theorem vertexPoint_position (normals colors : List Vec3)
    (cfg : PointCloudConfig) (hasN hasC : Bool) (pair : ℕ × Vec3) :
    (vertexPoint normals colors cfg hasN hasC pair).position
      = cfg.scale • pair.2 := by
  simp only [vertexPoint]
  split <;> split <;> simp

theorem vertices_branch_getD (normals colors : List Vec3)
    (cfg : PointCloudConfig) (hasN hasC : Bool) (vertices : List Vec3)
    (i : ℕ) (hi : i < min cfg.point_count vertices.length) :
    (((vertices.take cfg.point_count).enum.map
        (vertexPoint normals colors cfg hasN hasC)).getD i
        (Point.new 0)).position
      = cfg.scale • vertices.getD i 0 := by
  have hi2 : i < vertices.length := lt_of_lt_of_le hi (min_le_right _ _)
  have hb : i < ((vertices.take cfg.point_count).enum.map
      (vertexPoint normals colors cfg hasN hasC)).length := by
    simpa using hi
  rw [List.getD_eq_getElem _ _ hb, List.getElem_map, vertexPoint_position]
  congr 1
  rw [List.getD_eq_getElem _ _ hi2]
  simp [List.getElem_enum, List.getElem_take]

/-- C2: with the Vertices strategy the output has exactly
min(point_count, vertex_count) points, the i-th output position is exactly
scale times vertices[i], and the result does not depend on the random
stream at all. -/
theorem generate_point_cloud_vertices_spec (sqrtFn : ℚ → ℚ) (rng rngB : ℕ → ℚ)
    (vertices normals colors : List Vec3) (indices : List ℕ)
    (cfg : PointCloudConfig)
    (hv : vertices ≠ [])
    (hs : cfg.sampling_strategy = .Vertices) :
    (generate_point_cloud sqrtFn rng vertices normals colors indices
        cfg).length = min cfg.point_count vertices.length
    ∧ (∀ i, i < min cfg.point_count vertices.length →
        ((generate_point_cloud sqrtFn rng vertices normals colors indices
            cfg).getD i (Point.new 0)).position
          = cfg.scale • vertices.getD i 0)
    ∧ generate_point_cloud sqrtFn rngB vertices normals colors indices cfg
        = generate_point_cloud sqrtFn rng vertices normals colors indices
            cfg := by
  obtain ⟨pc, strat, incn, incc, scale, jitter⟩ := cfg
  simp only at hs
  subst hs
  refine ⟨by simp [generate_point_cloud], ?_, rfl⟩
  intro i hi
  simp only [generate_point_cloud]
  exact vertices_branch_getD normals colors _ _ _ vertices i hi

/-- Config used by the C2 witness: Vertices strategy, scale 2. -/
def cfgV : PointCloudConfig :=
  { point_count := 2
    sampling_strategy := .Vertices
    include_normals := false
    include_colors := false
    scale := 2
    jitter := 0 }

/-- C2 witness at a concrete one-vertex mesh. -/
theorem generate_point_cloud_vertices_spec_witness :
    ([(⟨1, 2, 3⟩ : Vec3)] ≠ [])
    ∧ ((generate_point_cloud sqZero rngHalf [⟨1, 2, 3⟩] [] [] [] cfgV).length
          = min cfgV.point_count [(⟨1, 2, 3⟩ : Vec3)].length
      ∧ (∀ i, i < min cfgV.point_count [(⟨1, 2, 3⟩ : Vec3)].length →
          ((generate_point_cloud sqZero rngHalf [⟨1, 2, 3⟩] [] [] []
              cfgV).getD i (Point.new 0)).position
            = cfgV.scale • ([(⟨1, 2, 3⟩ : Vec3)]).getD i 0)
      ∧ generate_point_cloud sqZero rng34 [⟨1, 2, 3⟩] [] [] [] cfgV
          = generate_point_cloud sqZero rngHalf [⟨1, 2, 3⟩] [] [] [] cfgV) :=
  ⟨by simp,
   generate_point_cloud_vertices_spec sqZero rngHalf rng34 [⟨1, 2, 3⟩] [] []
     [] cfgV (by simp) rfl⟩

/-! ### Jitter bounds (C3) -/

theorem abs_rangeDraw (j u : ℚ) (hj : 0 ≤ j) (h0 : 0 ≤ u) (h1 : u < 1) :
    |rangeDraw u (-j) j| ≤ j := by
  rw [abs_le]
  constructor <;> simp only [rangeDraw] <;> nlinarith

theorem jitterNoise_abs (j : ℚ) (hj : 0 ≤ j) (u1 u2 u3 : ℚ)
    (h1 : 0 ≤ u1 ∧ u1 < 1) (h2 : 0 ≤ u2 ∧ u2 < 1) (h3 : 0 ≤ u3 ∧ u3 < 1) :
    |(jitterNoise j u1 u2 u3).x| ≤ j * (1 / 10)
      ∧ |(jitterNoise j u1 u2 u3).y| ≤ j * (1 / 10)
      ∧ |(jitterNoise j u1 u2 u3).z| ≤ j * (1 / 10) := by
  have hj10 : 0 ≤ j * (1 / 10) := by positivity
  simp only [jitterNoise]
  split
  · exact ⟨abs_rangeDraw _ u1 hj10 h1.1 h1.2, abs_rangeDraw _ u2 hj10 h2.1 h2.2,
      abs_rangeDraw _ u3 hj10 h3.1 h3.2⟩
  · refine ⟨?_, ?_, ?_⟩ <;> simpa using hj10

theorem jitterNoise_of_zero (u1 u2 u3 : ℚ) : jitterNoise 0 u1 u2 u3 = 0 := by
  simp [jitterNoise]

theorem triPoint_position (sqrtFn : ℚ → ℚ) (vertices normals colors : List Vec3)
    (cfg : PointCloudConfig) (hasN hasC : Bool) (tri : List ℕ)
    (r1u r2 u1 u2 u3 : ℚ) :
    (triPoint sqrtFn vertices normals colors cfg hasN hasC tri
        r1u r2 u1 u2 u3).position
      = scaleJitter cfg (triBase sqrtFn vertices tri r1u r2) u1 u2 u3 := by
  simp only [triPoint]
  split <;> split <;> simp

theorem triLoop_mem_position (sqrtFn : ℚ → ℚ) (rng : ℕ → ℚ)
    (vertices normals colors : List Vec3) (cfg : PointCloudConfig)
    (hasN hasC : Bool) (triangles : List (List ℕ)) (weights : List ℚ)
    (total : ℚ) (hrng : ∀ k, 0 ≤ rng k ∧ rng k < 1) :
    ∀ (n k : ℕ), ∀ p ∈ triLoop sqrtFn rng vertices normals colors cfg hasN
        hasC triangles weights total n k,
      ∃ (base : Vec3) (a b c : ℚ), (0 ≤ a ∧ a < 1) ∧ (0 ≤ b ∧ b < 1)
        ∧ (0 ≤ c ∧ c < 1) ∧ p.position = scaleJitter cfg base a b c := by
  intro n
  induction n with
  | zero => intro k p hp; simp [triLoop] at hp
  | succ n ih =>
      intro k p hp
      simp only [triLoop] at hp
      split at hp
      · rcases List.mem_cons.mp hp with hhead | htail
        · subst hhead
          exact ⟨triBase sqrtFn vertices _ (rng (k + 1)) (rng (k + 2)),
            rng (k + 3), rng (k + 4), rng (k + 5),
            hrng (k + 3), hrng (k + 4), hrng (k + 5),
            triPoint_position sqrtFn vertices normals colors cfg hasN hasC _
              (rng (k + 1)) (rng (k + 2)) (rng (k + 3)) (rng (k + 4))
              (rng (k + 5))⟩
        · exact ih _ p htail
      · exact ih _ p hp

theorem vertLoop_mem_position (rng : ℕ → ℚ)
    (vertices normals colors : List Vec3) (cfg : PointCloudConfig)
    (hasN hasC : Bool) (hrng : ∀ k, 0 ≤ rng k ∧ rng k < 1) :
    ∀ (n k : ℕ), ∀ p ∈ vertLoop rng vertices normals colors cfg hasN hasC n k,
      ∃ (base : Vec3) (a b c : ℚ), (0 ≤ a ∧ a < 1) ∧ (0 ≤ b ∧ b < 1)
        ∧ (0 ≤ c ∧ c < 1) ∧ p.position = scaleJitter cfg base a b c := by
  intro n
  induction n with
  | zero => intro k p hp; simp [vertLoop] at hp
  | succ n ih =>
      intro k p hp
      simp only [vertLoop] at hp
      rcases List.mem_cons.mp hp with hhead | htail
      · subst hhead
        refine ⟨vertices.getD (natDraw (rng k) vertices.length) 0,
          rng (k + 1), rng (k + 2), rng (k + 3),
          hrng (k + 1), hrng (k + 2), hrng (k + 3), ?_⟩
        split <;> split <;> simp
      · exact ih _ p htail

/-- C3: the jitter noise added to a sampled position is, per axis, at most
jitter*0.1 in absolute value (and drawn from that symmetric interval); with
jitter zero no noise is added; the noise enters before the scale
multiplier; and consequently every point emitted by the Uniform or
AreaWeighted strategies has position equal to scale times (an unjittered
sample plus a noise vector bounded per axis by jitter*0.1, zero when jitter
is zero). -/
theorem jitter_noise_bounded (cfg : PointCloudConfig) (u1 u2 u3 : ℚ)
    (hj : 0 ≤ cfg.jitter)
    (h1 : 0 ≤ u1 ∧ u1 < 1) (h2 : 0 ≤ u2 ∧ u2 < 1) (h3 : 0 ≤ u3 ∧ u3 < 1) :
    (|(jitterNoise cfg.jitter u1 u2 u3).x| ≤ cfg.jitter * (1 / 10)
      ∧ |(jitterNoise cfg.jitter u1 u2 u3).y| ≤ cfg.jitter * (1 / 10)
      ∧ |(jitterNoise cfg.jitter u1 u2 u3).z| ≤ cfg.jitter * (1 / 10))
    ∧ (cfg.jitter = 0 → jitterNoise cfg.jitter u1 u2 u3 = 0)
    ∧ (∀ base : Vec3, scaleJitter cfg base u1 u2 u3
        = cfg.scale • (base + jitterNoise cfg.jitter u1 u2 u3))
    ∧ (∀ (sqrtFn : ℚ → ℚ) (rng : ℕ → ℚ)
        (vertices normals colors : List Vec3) (indices : List ℕ),
        (∀ k, 0 ≤ rng k ∧ rng k < 1) →
        (cfg.sampling_strategy = .Uniform
          ∨ cfg.sampling_strategy = .AreaWeighted) →
        ∀ p ∈ generate_point_cloud sqrtFn rng vertices normals colors indices
            cfg,
          ∃ base noise : Vec3, p.position = cfg.scale • (base + noise)
            ∧ |noise.x| ≤ cfg.jitter * (1 / 10)
            ∧ |noise.y| ≤ cfg.jitter * (1 / 10)
            ∧ |noise.z| ≤ cfg.jitter * (1 / 10)
            ∧ (cfg.jitter = 0 → noise = 0)) := by
  refine ⟨jitterNoise_abs cfg.jitter hj u1 u2 u3 h1 h2 h3,
    fun h0 => by rw [h0]; exact jitterNoise_of_zero u1 u2 u3,
    fun _ => rfl, ?_⟩
  intro sqrtFn rng vertices normals colors indices hrng hstrat p hp
  have hmem : ∃ (base : Vec3) (a b c : ℚ), (0 ≤ a ∧ a < 1) ∧ (0 ≤ b ∧ b < 1)
      ∧ (0 ≤ c ∧ c < 1) ∧ p.position = scaleJitter cfg base a b c := by
    obtain ⟨pc, strat, incn, incc, scale, jitter⟩ := cfg
    rcases hstrat with hs | hs <;> simp only at hs <;> subst hs <;>
      simp only [generate_point_cloud, sampleByTriangles] at hp <;>
      [skip; skip] <;> split at hp
    · exact triLoop_mem_position _ _ _ _ _ _ _ _ _ _ _ hrng _ _ p hp
    · exact vertLoop_mem_position _ _ _ _ _ _ _ hrng _ _ p hp
    · exact triLoop_mem_position _ _ _ _ _ _ _ _ _ _ _ hrng _ _ p hp
    · exact vertLoop_mem_position _ _ _ _ _ _ _ hrng _ _ p hp
  obtain ⟨base, a, b, c, ha, hb, hc, hpos⟩ := hmem
  refine ⟨base, jitterNoise cfg.jitter a b c, hpos, ?_, ?_, ?_, ?_⟩
  · exact (jitterNoise_abs cfg.jitter hj a b c ha hb hc).1
  · exact (jitterNoise_abs cfg.jitter hj a b c ha hb hc).2.1
  · exact (jitterNoise_abs cfg.jitter hj a b c ha hb hc).2.2
  · intro h0; rw [h0]; exact jitterNoise_of_zero a b c

/-- Config used by the C3 witness: jitter one half. -/
def cfgJ : PointCloudConfig :=
  { point_count := 1
    sampling_strategy := .Uniform
    include_normals := false
    include_colors := false
    scale := 1
    jitter := 1 / 2 }

/-- C3 witness at concrete draws of one half. -/
theorem jitter_noise_bounded_witness :
    (0 ≤ cfgJ.jitter ∧ (0 ≤ (1 : ℚ) / 2 ∧ (1 : ℚ) / 2 < 1))
    ∧ ((|(jitterNoise cfgJ.jitter (1 / 2) (1 / 2) (1 / 2)).x|
            ≤ cfgJ.jitter * (1 / 10)
        ∧ |(jitterNoise cfgJ.jitter (1 / 2) (1 / 2) (1 / 2)).y|
            ≤ cfgJ.jitter * (1 / 10)
        ∧ |(jitterNoise cfgJ.jitter (1 / 2) (1 / 2) (1 / 2)).z|
            ≤ cfgJ.jitter * (1 / 10))
      ∧ (cfgJ.jitter = 0 →
          jitterNoise cfgJ.jitter (1 / 2) (1 / 2) (1 / 2) = 0)
      ∧ (∀ base : Vec3, scaleJitter cfgJ base (1 / 2) (1 / 2) (1 / 2)
          = cfgJ.scale • (base + jitterNoise cfgJ.jitter (1 / 2) (1 / 2)
              (1 / 2)))
      ∧ (∀ (sqrtFn : ℚ → ℚ) (rng : ℕ → ℚ)
          (vertices normals colors : List Vec3) (indices : List ℕ),
          (∀ k, 0 ≤ rng k ∧ rng k < 1) →
          (cfgJ.sampling_strategy = .Uniform
            ∨ cfgJ.sampling_strategy = .AreaWeighted) →
          ∀ p ∈ generate_point_cloud sqrtFn rng vertices normals colors
              indices cfgJ,
            ∃ base noise : Vec3, p.position = cfgJ.scale • (base + noise)
              ∧ |noise.x| ≤ cfgJ.jitter * (1 / 10)
              ∧ |noise.y| ≤ cfgJ.jitter * (1 / 10)
              ∧ |noise.z| ≤ cfgJ.jitter * (1 / 10)
              ∧ (cfgJ.jitter = 0 → noise = 0))) :=
  ⟨⟨by norm_num [cfgJ], by norm_num, by norm_num⟩,
   jitter_noise_bounded cfgJ (1 / 2) (1 / 2) (1 / 2) (by norm_num [cfgJ])
     ⟨by norm_num, by norm_num⟩ ⟨by norm_num, by norm_num⟩
     ⟨by norm_num, by norm_num⟩⟩

/-! ### Bounding-box fold lemmas (C6) -/

theorem foldl_minmax_pair (points : List Point) (i1 i2 : Vec3) :
    points.foldl
        (fun acc p => (vmin acc.1 p.position, vmax acc.2 p.position)) (i1, i2)
      = (points.foldl (fun a p => vmin a p.position) i1,
         points.foldl (fun a p => vmax a p.position) i2) := by
  induction points generalizing i1 i2 with
  | nil => rfl
  | cons p rest ih => simp only [List.foldl_cons]; exact ih _ _

theorem foldl_vec_comp (f : Vec3 → ℚ) (g : ℚ → ℚ → ℚ) (op : Vec3 → Vec3 → Vec3)
    (hop : ∀ a b, f (op a b) = g (f a) (f b)) :
    ∀ (points : List Point) (init : Vec3),
      f (points.foldl (fun a p => op a p.position) init)
        = points.foldl (fun a p => g a (f p.position)) (f init) := by
  intro points
  induction points with
  | nil => intro init; rfl
  | cons p rest ih =>
      intro init
      simp only [List.foldl_cons]
      rw [ih, hop]

theorem foldl_min_le (l : List ℚ) : ∀ s : ℚ,
    l.foldl min s ≤ s ∧ ∀ x ∈ l, l.foldl min s ≤ x := by
  induction l with
  | nil => intro s; exact ⟨le_refl s, by simp⟩
  | cons a t ih =>
      intro s
      simp only [List.foldl_cons]
      have h := ih (min s a)
      refine ⟨le_trans h.1 (min_le_left s a), ?_⟩
      intro x hx
      rcases List.mem_cons.mp hx with rfl | hx2
      · exact le_trans h.1 (min_le_right s x)
      · exact h.2 x hx2

theorem foldl_min_mem (l : List ℚ) : ∀ s : ℚ,
    l.foldl min s ∈ l ∨ l.foldl min s = s := by
  induction l with
  | nil => intro s; right; rfl
  | cons a t ih =>
      intro s
      simp only [List.foldl_cons]
      rcases ih (min s a) with h | h
      · left; exact List.mem_cons_of_mem a h
      · rcases min_choice s a with hc | hc
        · right; rw [h, hc]
        · left; rw [h, hc]; exact List.mem_cons_self a t

theorem foldl_min_spec (l : List ℚ) (s : ℚ) (hne : l ≠ [])
    (hub : ∀ x ∈ l, x ≤ s) :
    l.foldl min s ∈ l ∧ ∀ x ∈ l, l.foldl min s ≤ x := by
  rcases foldl_min_mem l s with h | h
  · exact ⟨h, (foldl_min_le l s).2⟩
  · obtain ⟨x0, hx0⟩ := List.exists_mem_of_ne_nil l hne
    have h1 := (foldl_min_le l s).2 x0 hx0
    have h2 : x0 ≤ l.foldl min s := by rw [h]; exact hub x0 hx0
    have heq : l.foldl min s = x0 := le_antisymm h1 h2
    exact ⟨heq ▸ hx0, (foldl_min_le l s).2⟩

theorem foldl_max_le (l : List ℚ) : ∀ s : ℚ,
    s ≤ l.foldl max s ∧ ∀ x ∈ l, x ≤ l.foldl max s := by
  induction l with
  | nil => intro s; exact ⟨le_refl s, by simp⟩
  | cons a t ih =>
      intro s
      simp only [List.foldl_cons]
      have h := ih (max s a)
      refine ⟨le_trans (le_max_left s a) h.1, ?_⟩
      intro x hx
      rcases List.mem_cons.mp hx with rfl | hx2
      · exact le_trans (le_max_right s x) h.1
      · exact h.2 x hx2

theorem foldl_max_mem (l : List ℚ) : ∀ s : ℚ,
    l.foldl max s ∈ l ∨ l.foldl max s = s := by
  induction l with
  | nil => intro s; right; rfl
  | cons a t ih =>
      intro s
      simp only [List.foldl_cons]
      rcases ih (max s a) with h | h
      · left; exact List.mem_cons_of_mem a h
      · rcases max_choice s a with hc | hc
        · right; rw [h, hc]
        · left; rw [h, hc]; exact List.mem_cons_self a t

theorem foldl_max_spec (l : List ℚ) (s : ℚ) (hne : l ≠ [])
    (hlb : ∀ x ∈ l, s ≤ x) :
    l.foldl max s ∈ l ∧ ∀ x ∈ l, x ≤ l.foldl max s := by
  rcases foldl_max_mem l s with h | h
  · exact ⟨h, (foldl_max_le l s).2⟩
  · obtain ⟨x0, hx0⟩ := List.exists_mem_of_ne_nil l hne
    have h1 := (foldl_max_le l s).2 x0 hx0
    have h2 : l.foldl max s ≤ x0 := by rw [h]; exact hlb x0 hx0
    have heq : l.foldl max s = x0 := le_antisymm h2 h1
    exact ⟨heq ▸ hx0, (foldl_max_le l s).2⟩

/-- C6: for a non-empty point list whose coordinates lie in f32 range, the
EPT bounds are the component-wise minimum and maximum of all positions,
expanded on both ends of every axis by 0.01 times the Euclidean length of
(max - min); the empty point list yields six zeros with no padding. -/
theorem calculate_bounds_minmax_padding (b : EptBuilder) (points : List Point)
    (hne : points ≠ [])
    (hr : ∀ p ∈ points, |p.position.x| ≤ f32MAX ∧ |p.position.y| ≤ f32MAX
      ∧ |p.position.z| ≤ f32MAX) :
    EptBuilder.calculate_bounds b [] = [0, 0, 0, 0, 0, 0]
    ∧ ∃ mn mx : Vec3,
        ((∃ p ∈ points, p.position.x = mn.x)
          ∧ ∀ p ∈ points, mn.x ≤ p.position.x)
        ∧ ((∃ p ∈ points, p.position.y = mn.y)
          ∧ ∀ p ∈ points, mn.y ≤ p.position.y)
        ∧ ((∃ p ∈ points, p.position.z = mn.z)
          ∧ ∀ p ∈ points, mn.z ≤ p.position.z)
        ∧ ((∃ p ∈ points, p.position.x = mx.x)
          ∧ ∀ p ∈ points, p.position.x ≤ mx.x)
        ∧ ((∃ p ∈ points, p.position.y = mx.y)
          ∧ ∀ p ∈ points, p.position.y ≤ mx.y)
        ∧ ((∃ p ∈ points, p.position.z = mx.z)
          ∧ ∀ p ∈ points, p.position.z ≤ mx.z)
        ∧ EptBuilder.calculate_bounds b points =
            [(mn.x : ℝ) - boundsPad mn mx, (mn.y : ℝ) - boundsPad mn mx,
             (mn.z : ℝ) - boundsPad mn mx, (mx.x : ℝ) + boundsPad mn mx,
             (mx.y : ℝ) + boundsPad mn mx, (mx.z : ℝ) + boundsPad mn mx] := by
  refine ⟨rfl, ?_⟩
  refine ⟨points.foldl (fun a p => vmin a p.position) ⟨f32MAX, f32MAX, f32MAX⟩,
    points.foldl (fun a p => vmax a p.position) ⟨-f32MAX, -f32MAX, -f32MAX⟩,
    ?_, ?_, ?_, ?_, ?_, ?_, ?_⟩
  case _ =>
    have hcomp := foldl_vec_comp (fun v => v.x) min vmin (fun a b => rfl)
      points ⟨f32MAX, f32MAX, f32MAX⟩
    rw [← List.foldl_map (fun p : Point => p.position.x) min] at hcomp
    have hspec := foldl_min_spec (points.map fun p => p.position.x) f32MAX
      (by simpa using hne)
      (by
        intro x hx
        obtain ⟨p, hp, rfl⟩ := List.mem_map.mp hx
        exact (abs_le.mp (hr p hp).1).2)
    rw [← hcomp] at hspec
    refine ⟨?_, ?_⟩
    · obtain ⟨p, hp, hpx⟩ := List.mem_map.mp hspec.1
      exact ⟨p, hp, hpx⟩
    · intro p hp
      exact hspec.2 _ (List.mem_map_of_mem _ hp)
  case _ =>
    have hcomp := foldl_vec_comp (fun v => v.y) min vmin (fun a b => rfl)
      points ⟨f32MAX, f32MAX, f32MAX⟩
    rw [← List.foldl_map (fun p : Point => p.position.y) min] at hcomp
    have hspec := foldl_min_spec (points.map fun p => p.position.y) f32MAX
      (by simpa using hne)
      (by
        intro x hx
        obtain ⟨p, hp, rfl⟩ := List.mem_map.mp hx
        exact (abs_le.mp (hr p hp).2.1).2)
    rw [← hcomp] at hspec
    refine ⟨?_, ?_⟩
    · obtain ⟨p, hp, hpy⟩ := List.mem_map.mp hspec.1
      exact ⟨p, hp, hpy⟩
    · intro p hp
      exact hspec.2 _ (List.mem_map_of_mem _ hp)
  case _ =>
    have hcomp := foldl_vec_comp (fun v => v.z) min vmin (fun a b => rfl)
      points ⟨f32MAX, f32MAX, f32MAX⟩
    rw [← List.foldl_map (fun p : Point => p.position.z) min] at hcomp
    have hspec := foldl_min_spec (points.map fun p => p.position.z) f32MAX
      (by simpa using hne)
      (by
        intro x hx
        obtain ⟨p, hp, rfl⟩ := List.mem_map.mp hx
        exact (abs_le.mp (hr p hp).2.2).2)
    rw [← hcomp] at hspec
    refine ⟨?_, ?_⟩
    · obtain ⟨p, hp, hpz⟩ := List.mem_map.mp hspec.1
      exact ⟨p, hp, hpz⟩
    · intro p hp
      exact hspec.2 _ (List.mem_map_of_mem _ hp)
  case _ =>
    have hcomp := foldl_vec_comp (fun v => v.x) max vmax (fun a b => rfl)
      points ⟨-f32MAX, -f32MAX, -f32MAX⟩
    rw [← List.foldl_map (fun p : Point => p.position.x) max] at hcomp
    have hspec := foldl_max_spec (points.map fun p => p.position.x) (-f32MAX)
      (by simpa using hne)
      (by
        intro x hx
        obtain ⟨p, hp, rfl⟩ := List.mem_map.mp hx
        exact (abs_le.mp (hr p hp).1).1)
    rw [← hcomp] at hspec
    refine ⟨?_, ?_⟩
    · obtain ⟨p, hp, hpx⟩ := List.mem_map.mp hspec.1
      exact ⟨p, hp, hpx⟩
    · intro p hp
      exact hspec.2 _ (List.mem_map_of_mem _ hp)
  case _ =>
    have hcomp := foldl_vec_comp (fun v => v.y) max vmax (fun a b => rfl)
      points ⟨-f32MAX, -f32MAX, -f32MAX⟩
    rw [← List.foldl_map (fun p : Point => p.position.y) max] at hcomp
    have hspec := foldl_max_spec (points.map fun p => p.position.y) (-f32MAX)
      (by simpa using hne)
      (by
        intro x hx
        obtain ⟨p, hp, rfl⟩ := List.mem_map.mp hx
        exact (abs_le.mp (hr p hp).2.1).1)
    rw [← hcomp] at hspec
    refine ⟨?_, ?_⟩
    · obtain ⟨p, hp, hpy⟩ := List.mem_map.mp hspec.1
      exact ⟨p, hp, hpy⟩
    · intro p hp
      exact hspec.2 _ (List.mem_map_of_mem _ hp)
  case _ =>
    have hcomp := foldl_vec_comp (fun v => v.z) max vmax (fun a b => rfl)
      points ⟨-f32MAX, -f32MAX, -f32MAX⟩
    rw [← List.foldl_map (fun p : Point => p.position.z) max] at hcomp
    have hspec := foldl_max_spec (points.map fun p => p.position.z) (-f32MAX)
      (by simpa using hne)
      (by
        intro x hx
        obtain ⟨p, hp, rfl⟩ := List.mem_map.mp hx
        exact (abs_le.mp (hr p hp).2.2).1)
    rw [← hcomp] at hspec
    refine ⟨?_, ?_⟩
    · obtain ⟨p, hp, hpz⟩ := List.mem_map.mp hspec.1
      exact ⟨p, hp, hpz⟩
    · intro p hp
      exact hspec.2 _ (List.mem_map_of_mem _ hp)
  case _ =>
    simp only [EptBuilder.calculate_bounds, EptBuilder.calculate_bounds_points]
    rw [if_neg (by simpa using hne), foldl_minmax_pair]

/-- The four-point example cloud from the design document. -/
def c6pts : List Point :=
  [Point.new ⟨0, 0, 0⟩, Point.new ⟨1, 0, 0⟩, Point.new ⟨0, 1, 0⟩,
   Point.new ⟨0, 0, 1⟩]

/-- C6 witness at the four-point example. -/
theorem calculate_bounds_minmax_padding_witness :
    (c6pts ≠ []
      ∧ ∀ p ∈ c6pts, |p.position.x| ≤ f32MAX ∧ |p.position.y| ≤ f32MAX
          ∧ |p.position.z| ≤ f32MAX)
    ∧ (EptBuilder.calculate_bounds EptBuilder.new [] = [0, 0, 0, 0, 0, 0]
      ∧ ∃ mn mx : Vec3,
          ((∃ p ∈ c6pts, p.position.x = mn.x)
            ∧ ∀ p ∈ c6pts, mn.x ≤ p.position.x)
          ∧ ((∃ p ∈ c6pts, p.position.y = mn.y)
            ∧ ∀ p ∈ c6pts, mn.y ≤ p.position.y)
          ∧ ((∃ p ∈ c6pts, p.position.z = mn.z)
            ∧ ∀ p ∈ c6pts, mn.z ≤ p.position.z)
          ∧ ((∃ p ∈ c6pts, p.position.x = mx.x)
            ∧ ∀ p ∈ c6pts, p.position.x ≤ mx.x)
          ∧ ((∃ p ∈ c6pts, p.position.y = mx.y)
            ∧ ∀ p ∈ c6pts, p.position.y ≤ mx.y)
          ∧ ((∃ p ∈ c6pts, p.position.z = mx.z)
            ∧ ∀ p ∈ c6pts, p.position.z ≤ mx.z)
          ∧ EptBuilder.calculate_bounds EptBuilder.new c6pts =
              [(mn.x : ℝ) - boundsPad mn mx, (mn.y : ℝ) - boundsPad mn mx,
               (mn.z : ℝ) - boundsPad mn mx, (mx.x : ℝ) + boundsPad mn mx,
               (mx.y : ℝ) + boundsPad mn mx,
               (mx.z : ℝ) + boundsPad mn mx]) :=
  have hne : c6pts ≠ [] := by simp [c6pts]
  have hr : ∀ p ∈ c6pts, |p.position.x| ≤ f32MAX ∧ |p.position.y| ≤ f32MAX
      ∧ |p.position.z| ≤ f32MAX := by
    intro p hp
    fin_cases hp <;> refine ⟨?_, ?_, ?_⟩ <;> norm_num [Point.new, f32MAX]
  ⟨⟨hne, hr⟩, calculate_bounds_minmax_padding EptBuilder.new c6pts hne hr⟩

/-! ### JSON round trip (C7) -/

theorem vec3FromJson_toJson (v : Vec3) : vec3FromJson (vec3ToJson v) = some v :=
  rfl

theorem pointFromJson_toJson (p : Point) :
    pointFromJson (pointToJson p) = some p := by
  obtain ⟨pos, nrm, col⟩ := p
  cases nrm <;> cases col <;>
    simp [pointToJson, pointFromJson, optVec3Field, vec3FromJson, vec3ToJson,
      List.lookup]

theorem mapM_loop_pointFromJson (pts : List Point) :
    ∀ acc : List Point,
      List.mapM.loop pointFromJson (pts.map pointToJson) acc
        = some (acc.reverse ++ pts) := by
  induction pts with
  | nil => intro acc; simp [List.mapM.loop]
  | cons p rest ih =>
      intro acc
      simp [List.mapM.loop, pointFromJson_toJson, ih]

theorem mapM_pointFromJson_map (pts : List Point) :
    List.mapM pointFromJson (pts.map pointToJson) = some pts := by
  simpa using mapM_loop_pointFromJson pts []

theorem metadataFromJson_toJson (m : PointCloudMetadata) :
    metadataFromJson (metadataToJson m) = some m := by
  obtain ⟨pc, bmin, bmax, sf, hn, hc⟩ := m
  simp [metadataToJson, metadataFromJson, natFromJson, strFromJson,
    boolFromJson, vec3FromJson, vec3ToJson, List.lookup]

theorem pointCloudFromJson_toJson (pc : PointCloud) :
    pointCloudFromJson (pointCloudToJson pc) = some pc := by
  obtain ⟨pts, md⟩ := pc
  simp [pointCloudToJson, pointCloudFromJson, List.lookup,
    mapM_loop_pointFromJson, metadataFromJson_toJson]

/-- C7: the JSON round trip restores any point cloud exactly; a point
without a normal or color serializes with that key omitted entirely (never
emitted as null), and parsing such an object restores the absent field as
none. -/
theorem point_cloud_json_round_trip :
    (∀ pc : PointCloud, pointCloudFromJson (pointCloudToJson pc) = some pc)
    ∧ (∀ p : Point, jsonKeys (pointToJson p)
        = ["position"]
          ++ (if p.normal.isSome then ["normal"] else [])
          ++ (if p.color.isSome then ["color"] else []))
    ∧ (∀ p : Point, pointFromJson (pointToJson p) = some p) := by
  refine ⟨pointCloudFromJson_toJson, ?_, pointFromJson_toJson⟩
  intro p
  obtain ⟨pos, nrm, col⟩ := p
  cases nrm <;> cases col <;> simp [pointToJson, jsonKeys]

/-- C8 witness at the concrete key (1,2,3,3). -/
theorem octree_children_spec_witness :
    (OctreeKey.new 1 2 3 3).children.length = 8
    ∧ ∀ c ∈ (OctreeKey.new 1 2 3 3).children,
        c.depth = ((OctreeKey.new 1 2 3 3).depth + 1) % U32 :=
  (octree_children_spec (OctreeKey.new 1 2 3 3)).2

end HueGraphics
